import Mathlib

/-!
Verification of the Timetable-Wizard frontend correction and rendering layer.

The definitions below are a shallow embedding of the TypeScript sources
  frontend/src/utils/courseCorrections.ts
  frontend/src/components/TimetableTable/TimetableTable.tsx (final version)
  frontend/src/components/SummaryStats/SummaryStats.tsx (final version)
Strings are Lean String values; JavaScript regular-expression matching over
the fixed patterns of the source is implemented by explicit scanners whose
behaviour coincides with the JS engine on those patterns (each pattern's
greedy repetitions are followed by a character of a disjoint class or a word
boundary, so no backtracking is observable).  The JS whitespace class and the
Unicode case maps are modelled on their ASCII fragment, which covers every
literal the program manipulates.
-/

namespace TimetableWizard

/-- The JS regex class \s, restricted to its ASCII members (plus NBSP),
which are the only whitespace characters the program's data contains. -/
def isJsSpace (c : Char) : Bool :=
  c = ' ' || c = '\t' || c = '\n' || c = '\r' ||
  c = Char.ofNat 11 || c = Char.ofNat 12 || c = Char.ofNat 160

/-- The JS regex class \w: ASCII letters, digits and underscore. -/
def isWordChar (c : Char) : Bool :=
  c.isAlpha || c.isDigit || c = '_'

/-- Strip leading whitespace, as one side of String.prototype.trim. -/
def dropLead (l : List Char) : List Char := l.dropWhile isJsSpace

/-- Strip trailing whitespace. -/
def dropTrail (l : List Char) : List Char :=
  ((l.reverse).dropWhile isJsSpace).reverse

/-- Both sides of String.prototype.trim on a character list. -/
def trimChars (l : List Char) : List Char := dropTrail (dropLead l)

/-- String.prototype.trim. -/
def jsTrim (s : String) : String := ⟨trimChars s.data⟩

/-- String.prototype.toLowerCase, on the ASCII fragment. -/
def jsToLower (s : String) : String := ⟨s.data.map Char.toLower⟩

/-- String.prototype.toUpperCase, on the ASCII fragment. -/
def jsToUpper (s : String) : String := ⟨s.data.map Char.toUpper⟩

/-- Whether the first list is a pointwise-equal leading segment of the second. -/
def leadSeg : List Char → List Char → Bool
  | [], _ => true
  | _ :: _, [] => false
  | a :: as, b :: bs => a = b && leadSeg as bs

/-- Whether needle occurs contiguously inside hay
(String.prototype.includes). -/
def listContains (hay needle : List Char) : Bool :=
  match hay with
  | [] => leadSeg needle []
  | _ :: t => leadSeg needle hay || listContains t needle

/-- Case-insensitive substring test, as a JS /i regex literal test:
the needle is written lowercase. -/
def hasCI (s : String) (needle : String) : Bool :=
  listContains (jsToLower s).data needle.data

/-- The JS idiom (option || default) on an optional string: undefined and
the empty string both fall through to the default. -/
def jsOr (o : Option String) (d : String) : String :=
  match o with
  | some s => if s = "" then d else s
  | none => d

/-- Reading item.field || "": absent fields read as the empty string. -/
def orEmpty (o : Option String) : String := jsOr o ""

/-- One row of timetable data as the frontend receives it
(frontend/src/types/api.ts, plus the dynamically attached raw fields the
correction utilities read through the index signature). -/
structure TimetableItem where
  course : Option String := none
  course_title : Option String := none
  faculty : Option String := none
  room : Option String := none
  time : Option String := none
  semester : Option String := none
  campus : Option String := none
  class_section : Option String := none
  full_text : Option String := none
  raw_cells : Option (List String) := none
deriving DecidableEq, Repr

/-- isValidData of courseCorrections.ts on an optional string field: the
falsy check, then the untrimmed comparisons with the literals "null" and
"undefined", then the trimmed-emptiness check. -/
def isValidData (v : Option String) : Bool :=
  match v with
  | none => false
  | some s =>
    if s = "" then false
    else if s = "null" then false
    else if s = "undefined" then false
    else if jsTrim s = "" then false
    else true

/-- A JavaScript runtime value, as far as isValidData inspects one. -/
inductive JSValue where
  | str (s : String)
  | num (n : Int)
  | boolean (b : Bool)
  | null
  | undef
  | object
  | array (n : Nat)
deriving DecidableEq, Repr

/-- JS truthiness of a JSValue. -/
def truthy : JSValue → Bool
  | .str s => !(s = "")
  | .num n => !(n = 0)
  | .boolean b => b
  | .null => false
  | .undef => false
  | .object => true
  | .array _ => true

/-- Whether a JSValue is a string (typeof v === "string"). -/
def isStr : JSValue → Bool
  | .str _ => true
  | _ => false

/-- isValidData of courseCorrections.ts on an arbitrary runtime value,
clause for clause: the falsy check, the two literal comparisons (which can
only succeed on strings), the typeof check, then the trimmed-emptiness
check; "-" is explicitly kept valid, as is every other remaining string. -/
def isValidDataJS (v : JSValue) : Bool :=
  if !(truthy v) then false
  else if v = .str "null" then false
  else if v = .str "undefined" then false
  else if !(isStr v) then false
  else
    match v with
    | .str s => if trimChars s.data = [] then false else true
    | _ => false

/-- The validity predicate as the specification words it: present iff the
trimmed value is non-empty and differs from the literals "null" and
"undefined".  Stated only to compare with the implementation isValidData. -/
def specValidAfterTrim (s : String) : Bool :=
  let t := jsTrim s
  !(t = "") && !(t = "null") && !(t = "undefined")

/-! ### Regular-expression scanners

A matcher consumes a leading segment of the character list and returns the
consumed characters (the capture, which for every pattern of the source is
the whole pattern) together with the rest.  The scanners below try a matcher
at every position from the left, guarded by the word boundaries the source
patterns carry, which reproduces the leftmost-match rule of String.match. -/

/-- A matcher at a fixed position. -/
def Mat : Type := List Char → Option (List Char × List Char)

/-- Match a literal case-insensitively, returning the original characters. -/
def mLitCI (lit : List Char) : Mat := fun cs =>
  match lit, cs with
  | [], rest => some ([], rest)
  | _ :: _, [] => none
  | a :: as, b :: bs =>
    if a.toLower = b.toLower then
      match mLitCI as bs with
      | some (m, rest) => some (b :: m, rest)
      | none => none
    else none

/-- Match one character satisfying a class. -/
def mChar (p : Char → Bool) : Mat := fun cs =>
  match cs with
  | [] => none
  | c :: rest => if p c then some ([c], rest) else none

/-- Match the maximal non-empty run of a class (a greedy +). -/
def mPlus (p : Char → Bool) : Mat := fun cs =>
  let m := cs.takeWhile p
  if m = [] then none else some (m, cs.dropWhile p)

/-- Match exactly n characters of a class (a bounded repetition). -/
def mExact (p : Char → Bool) : Nat → Mat
  | 0 => fun cs => some ([], cs)
  | n + 1 => fun cs =>
    match cs with
    | [] => none
    | c :: rest =>
      if p c then
        match mExact p n rest with
        | some (m, r) => some (c :: m, r)
        | none => none
      else none

/-- Sequence two matchers. -/
def mSeq (m1 m2 : Mat) : Mat := fun cs =>
  match m1 cs with
  | some (a, r1) =>
    match m2 r1 with
    | some (b, r2) => some (a ++ b, r2)
    | none => none
  | none => none

/-- Ordered alternation of two matchers. -/
def mAlt (m1 m2 : Mat) : Mat := fun cs =>
  match m1 cs with
  | some r => some r
  | none => m2 cs

/-- Word boundary before the match: start of input or a non-word character
(every source pattern begins with a word character). -/
def boundB (prev : Option Char) : Bool :=
  match prev with
  | none => true
  | some p => !isWordChar p

/-- Word boundary after the match: end of input or a non-word character
(every source pattern ends with a word character). -/
def boundA (rest : List Char) : Bool :=
  match rest with
  | [] => true
  | r :: _ => !isWordChar r

/-- Scan for the leftmost boundary-delimited match of a matcher, the
previous character threaded for the left boundary. -/
def scanPat (m : Mat) : Option Char → List Char → Option (List Char)
  | prev, [] =>
    match (if boundB prev then m [] else none) with
    | some (mt, _) => some mt
    | none => none
  | prev, c :: cs =>
    match (if boundB prev then m (c :: cs) else none) with
    | some (mt, rest) =>
      if boundA rest then some mt else scanPat m (some c) cs
    | none => scanPat m (some c) cs

/-- First pattern of an ordered list with a match anywhere in the text. -/
def firstPat : List Mat → List Char → Option (List Char)
  | [], _ => none
  | p :: ps, cs =>
    match scanPat p none cs with
    | some mt => some mt
    | none => firstPat ps cs

/-! ### The room patterns of courseCorrections.ts -/

/-- The pattern /\b(Lab\s+\d+)\b/i -/
def patLabNum : Mat := mSeq (mLitCI "lab".data) (mSeq (mPlus isJsSpace) (mPlus Char.isDigit))

/-- The pattern /\b(Digital\s+Lab)\b/i -/
def patDigitalLab : Mat := mSeq (mLitCI "digital".data) (mSeq (mPlus isJsSpace) (mLitCI "lab".data))

/-- The pattern /\b(Computer\s+Lab)\b/i -/
def patComputerLab : Mat := mSeq (mLitCI "computer".data) (mSeq (mPlus isJsSpace) (mLitCI "lab".data))

/-- The pattern /\b(Room\s+\d+)\b/i -/
def patRoomNum : Mat := mSeq (mLitCI "room".data) (mSeq (mPlus isJsSpace) (mPlus Char.isDigit))

/-- The pattern /\b([A-Z]\x7b2\x7d-\d+)\b/i : with the i flag, two letters of either
case, a hyphen, then digits. -/
def patBuildingCode : Mat :=
  mSeq (mExact Char.isAlpha 2) (mSeq (mChar (· = '-')) (mPlus Char.isDigit))

/-- The pattern /\b(\d\x7b3\x7d)\b/ : exactly three digits between boundaries. -/
def patThreeDigits : Mat := mExact Char.isDigit 3

/-- The pattern /\b(TBD)\b/i -/
def patTBD : Mat := mLitCI "tbd".data

/-- The pattern /\b(Online|Virtual)\b/i -/
def patOnlineVirtual : Mat := mAlt (mLitCI "online".data) (mLitCI "virtual".data)

/-- The pattern /\b(Cancelled|Canceled)\b/i -/
def patCancelled : Mat := mAlt (mLitCI "cancelled".data) (mLitCI "canceled".data)

/-- The pattern /\b(Lab\s+\w+)\b/i -/
def patLabWord : Mat := mSeq (mLitCI "lab".data) (mSeq (mPlus isJsSpace) (mPlus isWordChar))

/-- The pattern /\b(NB-\d+|OB-\d+)\b/i -/
def patNBOB : Mat :=
  mAlt (mSeq (mLitCI "nb-".data) (mPlus Char.isDigit))
       (mSeq (mLitCI "ob-".data) (mPlus Char.isDigit))

/-- The ordered pattern list of extractRoomFromRawData. -/
def roomPatterns : List Mat :=
  [patLabNum, patDigitalLab, patComputerLab, patRoomNum, patBuildingCode,
   patThreeDigits, patTBD, patOnlineVirtual, patCancelled, patLabWord]

/-- The shorter ordered pattern list inside generateRoomFallback. -/
def fallbackRoomPatterns : List Mat :=
  [patLabNum, patDigitalLab, patComputerLab, patThreeDigits, patNBOB,
   patTBD, patLabWord]

/-- The post-processing both room scans apply to a match:
a value spelling TBD in any casing becomes "Online". -/
def tbdToOnline (m : String) : String :=
  if jsToUpper m = "TBD" then "Online" else m

/-- item.full_text || item.raw_cells?.join(" ") || "". -/
def rawTextOf (item : TimetableItem) : String :=
  jsOr item.full_text
    (jsOr (item.raw_cells.map (fun cells => String.intercalate " " cells)) "")

/-- extractRoomFromRawData of courseCorrections.ts. -/
def extractRoomFromRawData (item : TimetableItem) : Option String :=
  let rawText := rawTextOf item
  if rawText = "" then none
  else
    match firstPat roomPatterns rawText.data with
    | some mt => some (tbdToOnline ⟨mt⟩)
    | none => none

/-! ### Correction tables and fallback generators of courseCorrections.ts -/

/-- One entry of COURSE_CORRECTIONS: a partial field override. -/
structure CourseCorrection where
  time : Option String := none
  room : Option String := none
  campus : Option String := none
  faculty : Option String := none
  course_title : Option String := none
deriving DecidableEq, Repr

/-- The COURSE_CORRECTIONS table: a single entry for CSCL 2205. -/
def courseCorrectionsTable (course : String) : Option CourseCorrection :=
  if course = "CSCL 2205" then
    some { time := some "02:00 PM - 05:00 PM"
           room := some "Lab 02"
           campus := some "SZABIST University Campus"
           course_title := some "Lab: Operating Systems" }
  else none

/-- The field names a CourseCorrection can override. -/
inductive CField where
  | time | room | campus | faculty | course_title
deriving DecidableEq, Repr

/-- Read one field of a correction entry. -/
def corrField (c : CourseCorrection) : CField → Option String
  | .time => c.time
  | .room => c.room
  | .campus => c.campus
  | .faculty => c.faculty
  | .course_title => c.course_title

/-- The DEPARTMENT_NAMES mapping. -/
def departmentNames : List (String × String) :=
  [("CS", "Computer Science"), ("CSCL", "Computer Science Lab"),
   ("SE", "Software Engineering"), ("SECL", "Software Engineering Lab"),
   ("MATH", "Mathematics"), ("ENG", "English"), ("PHY", "Physics"),
   ("CHEM", "Chemistry"), ("BBA", "Business Administration"),
   ("MBA", "Master of Business Administration"),
   ("EE", "Electrical Engineering"), ("CE", "Computer Engineering"),
   ("IT", "Information Technology")]

/-- PATTERN_CORRECTIONS.CAMPUS_PATTERNS, in object insertion order. -/
def campusPatterns : List (String × String) :=
  [("BS", "SZABIST University Campus"), ("MS", "SZABIST University Campus"),
   ("MBA", "SZABIST University Campus"), ("BBA", "SZABIST University Campus")]

/-- Leftmost match of /([A-Z]+)\s*(\d+)/ in generateCourseTitle: a maximal
run of capital letters, an optional whitespace run, then digits; no word
boundaries.  Returns the two captures. -/
def findDeptNum : List Char → Option (List Char × List Char)
  | [] => none
  | c :: cs =>
    if c.isUpper then
      let letters := (c :: cs).takeWhile Char.isUpper
      let r1 := (c :: cs).dropWhile Char.isUpper
      let r2 := r1.dropWhile isJsSpace
      let digits := r2.takeWhile Char.isDigit
      if digits = [] then findDeptNum cs else some (letters, digits)
    else findDeptNum cs

/-- generateCourseTitle of courseCorrections.ts. -/
def generateCourseTitle (item : TimetableItem) : String :=
  let course := orEmpty item.course
  if course = "" then "Course Title Not Available"
  else
    match findDeptNum course.data with
    | some (dept, num) =>
      let deptS : String := ⟨dept⟩
      let numS : String := ⟨num⟩
      if dept.getLast? = some 'L' then
        let baseDept : String := ⟨dept.dropLast⟩
        let baseName := jsOr (departmentNames.lookup baseDept) baseDept
        baseName ++ " Lab " ++ numS
      else
        let deptName := jsOr (departmentNames.lookup deptS) deptS
        deptName ++ " Course " ++ numS
    | none => "Course: " ++ course

/-- generateTimeFallback: the lab pattern /Lab/i tested on
course + " " + course_title. -/
def generateTimeFallback (item : TimetableItem) : String :=
  if hasCI (orEmpty item.course ++ " " ++ orEmpty item.course_title) "lab" then
    "TBD (Lab Session - 3 hours)"
  else "TBD"

/-- LAB_COURSE_PATTERNS.defaultRoom of PATTERN_CORRECTIONS. -/
def labDefaultRoom (courseTitle : String) : String :=
  if hasCI courseTitle "computer" || hasCI courseTitle "cs" then "Computer Lab (TBD)"
  else if hasCI courseTitle "digital" then "Digital Lab"
  else "Lab (TBD)"

/-- The raw-text scan at the head of generateRoomFallback, over its own
shorter pattern list. -/
def fallbackRawScan (item : TimetableItem) : Option String :=
  let rawText := rawTextOf item
  if rawText = "" then none
  else
    match firstPat fallbackRoomPatterns rawText.data with
    | some mt => some (tbdToOnline ⟨mt⟩)
    | none => none

/-- generateRoomFallback of courseCorrections.ts: its own raw-text pattern
scan, then the online pattern, then the lab pattern, then "TBD". -/
def generateRoomFallback (item : TimetableItem) : String :=
  let course := orEmpty item.course
  let courseTitle := orEmpty item.course_title
  let combinedText := course ++ " " ++ courseTitle
  match fallbackRawScan item with
  | some r => r
  | none =>
    if hasCI combinedText "online" || hasCI combinedText "virtual" ||
       hasCI combinedText "distance" then "Online"
    else if hasCI combinedText "lab" then labDefaultRoom courseTitle
    else "TBD"

/-- generateCampusFallback of courseCorrections.ts. -/
def generateCampusFallback (item : TimetableItem) : String :=
  let semester := jsOr item.semester (jsOr item.class_section "")
  match campusPatterns.find? (fun p => listContains (jsToUpper semester).data p.1.data) with
  | some p => p.2
  | none => "SZABIST University Campus"

/-- The switch statement at the end of getCorrectedValue. -/
def correctedSwitch (field : CField) (item : TimetableItem) : Option String :=
  match field with
  | .course_title => some (generateCourseTitle item)
  | .time => some (generateTimeFallback item)
  | .room => some (generateRoomFallback item)
  | .campus => some (generateCampusFallback item)
  | .faculty => some "TBD"

/-- getCorrectedValue of courseCorrections.ts: the exact override table,
then (for room) the raw-data scan, then the pattern fallbacks. -/
def getCorrectedValue (field : CField) (item : TimetableItem) : Option String :=
  let corrVal : Option String :=
    match courseCorrectionsTable (orEmpty item.course) with
    | some corr => (corrField corr field).filter (fun v => !(v = ""))
    | none => none
  match corrVal with
  | some v => some v
  | none =>
    match field with
    | .room =>
      match extractRoomFromRawData item with
      | some r => if r = "" then correctedSwitch .room item else some r
      | none => correctedSwitch .room item
    | f => correctedSwitch f item

/-! ### The display helpers of TimetableTable.tsx (final version) -/

/-- getDisplayTime. -/
def getDisplayTime (item : TimetableItem) : String :=
  if isValidData item.time then orEmpty item.time
  else jsOr (getCorrectedValue .time item) "-"

/-- getDisplayRoom, including the initial rewrite of a room spelt TBD in
any casing to "Online" and the unconditional CSCL 2205 override. -/
def getDisplayRoom (item : TimetableItem) : String :=
  let room : Option String :=
    match item.room with
    | some r => some (if r ≠ "" ∧ jsToUpper r = "TBD" then "Online" else r)
    | none => none
  if orEmpty item.course = "CSCL 2205" then
    jsOr (getCorrectedValue .room item) (jsOr room "TBD")
  else if isValidData room then orEmpty room
  else
    match extractRoomFromRawData item with
    | some r => if r = "" then jsOr (getCorrectedValue .room item) "TBD" else r
    | none => jsOr (getCorrectedValue .room item) "TBD"

/-- getDisplayCampus: a valid campus is trimmed and SZABIST University
variants are canonicalized; an invalid one falls back to correction. -/
def getDisplayCampus (item : TimetableItem) : String :=
  if isValidData item.campus then
    let campusStr := jsTrim (orEmpty item.campus)
    if hasCI campusStr "szabist" && hasCI campusStr "university" then
      "SZABIST University Campus"
    else campusStr
  else jsOr (getCorrectedValue .campus item) "-"

/-- getDisplayFaculty. -/
def getDisplayFaculty (item : TimetableItem) : String :=
  if isValidData item.faculty then orEmpty item.faculty
  else jsOr (getCorrectedValue .faculty item) "TBD"

/-- getDisplayCourseTitle. -/
def getDisplayCourseTitle (item : TimetableItem) : String :=
  if isValidData item.course_title then orEmpty item.course_title
  else generateCourseTitle item

/-- One pass of the correction/display layer over a record: every correctable
field replaced by its display value (the identifying fields and the raw
source text are not touched by the display helpers). -/
def correctAll (item : TimetableItem) : TimetableItem :=
  { item with
    time := some (getDisplayTime item)
    room := some (getDisplayRoom item)
    faculty := some (getDisplayFaculty item)
    campus := some (getDisplayCampus item)
    course_title := some (getDisplayCourseTitle item) }

/-! ### Time parsing and the grouped, sorted rendering order
(TimetableTable.tsx, final version) -/

/-- Numeric value of a digit character. -/
def digVal (c : Char) : Nat := c.toNat - 48

/-- Leftmost match of /(\d\x7b1,2\x7d):(\d\x7b2\x7d)\s*(AM|PM)/i : returns
(hours, minutes, isPM).  The one- and two-digit hour alternatives are
distinguished by the position of the colon, so the scan is deterministic. -/
def findTime : List Char → Option (Nat × Nat × Bool)
  | [] => none
  | c :: cs =>
    match tryTimeAt (c :: cs) with
    | some r => some r
    | none => findTime cs
where
  /-- Minutes then the meridiem suffix, after the colon. -/
  afterColon (h : Nat) : List Char → Option (Nat × Nat × Bool)
    | m1 :: m2 :: rest =>
      if m1.isDigit && m2.isDigit then
        match rest.dropWhile isJsSpace with
        | p :: q :: _ =>
          if q.toLower = 'm' && (p.toLower = 'a' || p.toLower = 'p') then
            some (h, 10 * digVal m1 + digVal m2, p.toLower = 'p')
          else none
        | _ => none
      else none
    | _ => none
  /-- The whole pattern anchored at the current position. -/
  tryTimeAt : List Char → Option (Nat × Nat × Bool)
    | a :: b :: rest =>
      if a.isDigit then
        if b = ':' then afterColon (digVal a) rest
        else if b.isDigit then
          match rest with
          | x :: rest2 => if x = ':' then afterColon (10 * digVal a + digVal b) rest2 else none
          | [] => none
        else none
      else none
    | _ => none

/-- parseTimeToMinutes of TimetableTable.tsx: minutes since midnight of the
first clock clause, 0 for the sentinels and for unparseable text. -/
def parseTimeToMinutes (t : String) : Nat :=
  if t = "" || t = "-" || t = "null" then 0
  else
    match findTime t.data with
    | none => 0
    | some (h, m, pm) =>
      let h24 := if pm then (if h ≠ 12 then h + 12 else h) else (if h = 12 then 0 else h)
      h24 * 60 + m

/-- Code-point lexicographic strict order on character lists, as the
comparison Array.prototype.sort applies by default when called with no
comparator (identical to UTF-16 order on the basic plane); the rendering
sorts the semester keys this way.  The per-group course tie-break instead
uses String.prototype.localeCompare, which is modelled abstractly below. -/
def strLtB : List Char → List Char → Bool
  | [], [] => false
  | [], _ :: _ => true
  | _ :: _, [] => false
  | a :: as, b :: bs =>
    if a.toNat < b.toNat then true
    else if b.toNat < a.toNat then false
    else strLtB as bs

/-- Reflexive closure of strLtB. -/
def strLeB : List Char → List Char → Bool
  | [], _ => true
  | _ :: _, [] => false
  | a :: as, b :: bs =>
    if a.toNat < b.toNat then true
    else if b.toNat < a.toNat then false
    else strLeB as bs

/-- Strict code-point order on strings. -/
def strLt (a b : String) : Prop := strLtB a.data b.data = true

/-- Code-point order on strings; the rendering sorts semester labels by it. -/
def strLe (a b : String) : Prop := strLeB a.data b.data = true

instance : DecidableRel strLe := fun _ _ => inferInstanceAs (Decidable (_ = true))

instance : DecidableRel strLt := fun _ _ => inferInstanceAs (Decidable (_ = true))

/-- The grouping key: item.semester || "Unknown". -/
def semKey (item : TimetableItem) : String := jsOr item.semester "Unknown"

/-- The comparator of the per-semester sort, as a non-strict order: an item
comes no later than another iff its display-time minutes are smaller, or
equal with a course code that localeCompare places no later.  The tie-break
in the source is courseA.localeCompare(courseB), an ICU collation of the
host's default locale that ECMA-262 leaves implementation-defined, so it is
taken here as a parameter courseLe, standing for the relation
(localeCompare at most zero); a conforming collation makes any such
courseLe total and transitive, which is all the ordering theorem needs. -/
def itemLe (courseLe : String → String → Prop) (a b : TimetableItem) : Prop :=
  parseTimeToMinutes (getDisplayTime a) < parseTimeToMinutes (getDisplayTime b) ∨
  (parseTimeToMinutes (getDisplayTime a) = parseTimeToMinutes (getDisplayTime b) ∧
   courseLe (orEmpty a.course) (orEmpty b.course))

instance {courseLe : String → String → Prop} [DecidableRel courseLe] :
    DecidableRel (itemLe courseLe) := fun _ _ => inferInstanceAs (Decidable (_ ∨ _))

/-- Append a key if it is new, as JS object key creation in insertion
order. -/
def insKey (ks : List String) (k : String) : List String :=
  if k ∈ ks then ks else ks ++ [k]

/-- The semester keys of the grouped object, first-seen order. -/
def keysOf (items : List TimetableItem) : List String :=
  items.foldl (fun ks i => insKey ks (semKey i)) []

/-- The group of one semester key, in arrival order. -/
def groupOf (items : List TimetableItem) (k : String) : List TimetableItem :=
  items.filter (fun i => semKey i = k)

/-- The semester keys in the order the table renders its groups:
Object.keys(grouped).sort() with no comparator, the default code-unit
ascending sort on the raw labels.  This part of the ordering does not
involve localeCompare. -/
def sortedSemesterKeys (items : List TimetableItem) : List String :=
  List.insertionSort strLe (keysOf items)

/-- groupAndSortData of TimetableTable.tsx, parametrized by the
localeCompare collation courseLe: the semester keys sorted code-unit
ascending, each paired with its group sorted by the time/course comparator.
Array.prototype.sort with a comparator is stable and the comparator induces
the total preorder itemLe courseLe, so it coincides with the stable
insertion sort. -/
def groupAndSortData (courseLe : String → String → Prop) [DecidableRel courseLe]
    (items : List TimetableItem) : List (String × List TimetableItem) :=
  (sortedSemesterKeys items).map
    (fun k => (k, List.insertionSort (itemLe courseLe) (groupOf items k)))

/-- The order in which the table renders records: the sorted groups
flattened. -/
def renderedRows (courseLe : String → String → Prop) [DecidableRel courseLe]
    (items : List TimetableItem) : List TimetableItem :=
  (groupAndSortData courseLe items).flatMap (fun g => g.2)

/-- The combined rendering order the sorted table satisfies: strictly
earlier semester label, or the same label and the time/course comparator. -/
def renderLe (courseLe : String → String → Prop) (a b : TimetableItem) : Prop :=
  strLt (semKey a) (semKey b) ∨ (semKey a = semKey b ∧ itemLe courseLe a b)

/-! ### Semester normalization (SummaryStats.tsx, final version) -/

/-- normalizeSemester: remove every whitespace or hyphen character
(s.replace with the global pattern matching \s or the hyphen), then
lowercase. -/
def normalizeSemester (s : String) : String :=
  ⟨(s.data.filter (fun c => !(isJsSpace c || c = '-'))).map Char.toLower⟩

/-- The matcher of SummaryStats: the first breakdown key whose normalized
form equals the normalized semester. -/
def semesterKeyMatches (keys : List String) (semester : String) : Option String :=
  keys.find? (fun k => normalizeSemester k = normalizeSemester semester)

/-- A spelling variant in the sense of the specification: the two character
lists agree up to inserting or deleting whitespace/hyphen characters on
either side and changing the case of the remaining characters. -/
inductive SemVariant : List Char → List Char → Prop where
  | nil : SemVariant [] []
  | keep {c c' : Char} {l l' : List Char} :
      c.toLower = c'.toLower → (isJsSpace c || c = '-') = false →
      (isJsSpace c' || c' = '-') = false →
      SemVariant l l' → SemVariant (c :: l) (c' :: l')
  | insL {c : Char} {l l' : List Char} :
      (isJsSpace c || c = '-') = true → SemVariant l l' → SemVariant (c :: l) l'
  | insR {c : Char} {l l' : List Char} :
      (isJsSpace c || c = '-') = true → SemVariant l l' → SemVariant l (c :: l')

/-! ### Basic lemmas about trimming and validity -/

theorem mem_dropWhile_of_not {p : Char → Bool} {c : Char} {l : List Char}
    (hc : c ∈ l) (hp : p c = false) : c ∈ l.dropWhile p := by
  induction l with
  | nil => cases hc
  | cons a t ih =>
    rw [List.dropWhile_cons]
    by_cases ha : p a = true
    · simp only [ha, if_true]
      rcases List.mem_cons.mp hc with rfl | hct
      · rw [hp] at ha; cases ha
      · exact ih hct
    · simp only [Bool.not_eq_true] at ha
      simp [ha, hc]

theorem dropWhile_self {p : Char → Bool} (l : List Char) :
    (l.dropWhile p).dropWhile p = l.dropWhile p := by
  induction l with
  | nil => rfl
  | cons a t ih =>
    rw [List.dropWhile_cons]
    by_cases ha : p a = true
    · simp [ha, ih]
    · simp only [Bool.not_eq_true] at ha
      simp [List.dropWhile_cons, ha]

theorem trimChars_ne_nil {c : Char} {l : List Char}
    (hc : c ∈ l) (hp : isJsSpace c = false) : trimChars l ≠ [] := by
  intro h
  unfold trimChars dropTrail dropLead at h
  rw [List.reverse_eq_nil_iff] at h
  have hmem : c ∈ (l.dropWhile isJsSpace).reverse :=
    List.mem_reverse.mpr (mem_dropWhile_of_not hc hp)
  have := List.dropWhile_eq_nil_iff.mp h c hmem
  rw [hp] at this
  cases this

theorem dropLead_head_not_space {c : Char} {l t : List Char}
    (h : dropLead l = c :: t) : isJsSpace c = false := by
  induction l with
  | nil => cases h
  | cons a t' ih =>
    unfold dropLead at h ih
    rw [List.dropWhile_cons] at h
    by_cases ha : isJsSpace a = true
    · rw [if_pos ha] at h; exact ih h
    · rw [if_neg ha] at h
      cases h
      simpa using ha

theorem dropTrail_head {c : Char} {x t : List Char}
    (h : dropTrail x = c :: t) : ∃ u, x = c :: u := by
  unfold dropTrail at h
  have hsuf : (c :: t).reverse <:+ x.reverse := by
    rw [← h, List.reverse_reverse]
    exact List.dropWhile_suffix _
  rcases hsuf with ⟨u, hu⟩
  refine ⟨(u ++ t.reverse).reverse, ?_⟩
  have := congrArg List.reverse hu
  rw [List.reverse_reverse] at this
  rw [← this]
  simp

theorem trimChars_idem (l : List Char) : trimChars (trimChars l) = trimChars l := by
  unfold trimChars
  have hA : dropLead (dropTrail (dropLead l)) = dropTrail (dropLead l) := by
    cases hy : dropTrail (dropLead l) with
    | nil => rfl
    | cons c t =>
      rcases dropTrail_head hy with ⟨u, hu⟩
      have hc : isJsSpace c = false := dropLead_head_not_space hu
      unfold dropLead
      rw [List.dropWhile_cons, hc]
      simp
  rw [hA]
  unfold dropTrail
  rw [List.reverse_reverse, dropWhile_self]

theorem jsTrim_idem (s : String) : jsTrim (jsTrim s) = jsTrim s :=
  String.ext (trimChars_idem s.data)

theorem jsTrim_empty : jsTrim "" = "" := rfl

theorem str_ne_of_char {s t : String} {c : Char}
    (h1 : c ∈ s.data) (h2 : c ∉ t.data) : s ≠ t := by
  intro h; subst h; exact h2 h1

/-- The exact characterization of isValidData on strings: the untrimmed
literal comparisons plus the trimmed-emptiness check (non-emptiness of the
string itself follows from the trim being non-empty). -/
theorem isValidData_some_iff (s : String) :
    isValidData (some s) = true ↔ (¬ s = "null" ∧ ¬ s = "undefined" ∧ ¬ jsTrim s = "") := by
  simp only [isValidData]
  by_cases h1 : s = ""
  · subst h1; decide
  · by_cases h2 : s = "null"
    · subst h2; decide
    · by_cases h3 : s = "undefined"
      · subst h3; decide
      · rw [if_neg h1, if_neg h2, if_neg h3]
        by_cases h4 : jsTrim s = "" <;> simp [h2, h3, h4]

theorem isValidData_intro {s : String} (h2 : ¬ s = "null") (h3 : ¬ s = "undefined")
    (h4 : ¬ jsTrim s = "") : isValidData (some s) = true :=
  (isValidData_some_iff s).mpr ⟨h2, h3, h4⟩

/-- C4, counterexample.  The string " null " trims to "null", so the
specification predicate rejects it, yet isValidData compares the literals
before trimming and accepts it. -/
theorem isValidData_trimmed_null_counterexample :
    isValidData (some " null ") = true ∧ specValidAfterTrim " null " = false := by
  decide

/-- C4, amended.  isValidData accepts exactly the strings that differ,
untrimmed, from the literals "null" and "undefined" and whose trimmed form
is non-empty; the literal "-" is accepted.  (The literal comparisons happen
before trimming, so " null " is also accepted, unlike the spec wording.) -/
theorem isValidData_characterization :
    (∀ s : String,
      isValidData (some s) = true ↔ (¬ s = "null" ∧ ¬ s = "undefined" ∧ ¬ jsTrim s = "")) ∧
    isValidData (some "-") = true ∧ isValidData (some " null ") = true :=
  ⟨isValidData_some_iff, by decide, by decide⟩

/-- C9.  A non-string runtime value never passes isValidData: every falsy
value fails the truthiness check and every truthy non-string fails the
typeof check, so only the correction fallbacks can supply such a field. -/
theorem isValidDataJS_nonstring_false :
    ∀ v : JSValue, isStr v = false → isValidDataJS v = false := by
  intro v h
  cases v with
  | str s => simp [isStr] at h
  | num n =>
    by_cases hn : n = 0 <;> simp [isValidDataJS, truthy, isStr, hn]
  | boolean b => cases b <;> simp [isValidDataJS, truthy, isStr]
  | null => rfl
  | undef => rfl
  | object => simp [isValidDataJS, truthy, isStr]
  | array n => simp [isValidDataJS, truthy, isStr]

/-- C9, witness at the number 5. -/
theorem isValidDataJS_nonstring_false_witness :
    isStr (JSValue.num 5) = false ∧ isValidDataJS (JSValue.num 5) = false :=
  ⟨by decide, isValidDataJS_nonstring_false (JSValue.num 5) (by decide)⟩

/-! ### The correction table on CSCL 2205 and elsewhere -/

theorem table_none {c : String} (h : ¬ c = "CSCL 2205") :
    courseCorrectionsTable c = none := by
  unfold courseCorrectionsTable; rw [if_neg h]

theorem gcv_room_cscl {item : TimetableItem} (h : orEmpty item.course = "CSCL 2205") :
    getCorrectedValue .room item = some "Lab 02" := by
  unfold getCorrectedValue
  rw [h]
  rfl

theorem gcv_time_cscl {item : TimetableItem} (h : orEmpty item.course = "CSCL 2205") :
    getCorrectedValue .time item = some "02:00 PM - 05:00 PM" := by
  unfold getCorrectedValue
  rw [h]
  rfl

theorem gcv_campus_cscl {item : TimetableItem} (h : orEmpty item.course = "CSCL 2205") :
    getCorrectedValue .campus item = some "SZABIST University Campus" := by
  unfold getCorrectedValue
  rw [h]
  rfl

theorem gcv_faculty_eq (item : TimetableItem) :
    getCorrectedValue .faculty item = some "TBD" := by
  unfold getCorrectedValue
  by_cases h : orEmpty item.course = "CSCL 2205"
  · rw [h]; rfl
  · rw [table_none h]; rfl

/-- C2.  The sentinels are not interconverted: a room that is exactly "-"
never displays as "TBD", and a room that is exactly "TBD" never displays
as "-" (it displays as "Online", or as the CSCL 2205 override). -/
theorem sentinel_rooms_not_conflated (item : TimetableItem) :
    (item.room = some "-" → ¬ getDisplayRoom item = "TBD") ∧
    (item.room = some "TBD" → ¬ getDisplayRoom item = "-") := by
  constructor <;> intro h
  · have e1 : (if ¬ ("-" : String) = "" ∧ jsToUpper "-" = "TBD" then "Online" else "-") = "-" :=
      by decide
    simp only [getDisplayRoom, h]
    rw [e1]
    by_cases hc : orEmpty item.course = "CSCL 2205"
    · rw [if_pos hc, gcv_room_cscl hc]; decide
    · rw [if_neg hc, if_pos (by decide : isValidData (some "-") = true)]
      decide
  · have e2 :
        (if ¬ ("TBD" : String) = "" ∧ jsToUpper "TBD" = "TBD" then "Online" else "TBD") =
          "Online" := by decide
    simp only [getDisplayRoom, h]
    rw [e2]
    by_cases hc : orEmpty item.course = "CSCL 2205"
    · rw [if_pos hc, gcv_room_cscl hc]; decide
    · rw [if_neg hc, if_pos (by decide : isValidData (some "Online") = true)]
      decide

/-! ### Valid fields pass through the display helpers -/

theorem valid_ne_empty {s : String} (h : isValidData (some s) = true) : ¬ s = "" := by
  rcases (isValidData_some_iff s).mp h with ⟨-, -, h4⟩
  intro he
  subst he
  exact h4 rfl

theorem orEmpty_some_of_ne {s : String} (h : ¬ s = "") : orEmpty (some s) = s := by
  simp [orEmpty, jsOr, h]

theorem displayTime_of_valid {item : TimetableItem} {t : String}
    (ht : item.time = some t) (hv : isValidData (some t) = true) :
    getDisplayTime item = t := by
  simp only [getDisplayTime, ht]
  rw [if_pos hv]
  exact orEmpty_some_of_ne (valid_ne_empty hv)

theorem displayFaculty_of_valid {item : TimetableItem} {f : String}
    (hf : item.faculty = some f) (hv : isValidData (some f) = true) :
    getDisplayFaculty item = f := by
  simp only [getDisplayFaculty, hf]
  rw [if_pos hv]
  exact orEmpty_some_of_ne (valid_ne_empty hv)

theorem displayTitle_of_valid {item : TimetableItem} {ti : String}
    (hti : item.course_title = some ti) (hv : isValidData (some ti) = true) :
    getDisplayCourseTitle item = ti := by
  simp only [getDisplayCourseTitle, hti]
  rw [if_pos hv]
  exact orEmpty_some_of_ne (valid_ne_empty hv)

theorem displayCampus_of_valid {item : TimetableItem} {c : String}
    (hc : item.campus = some c) (hv : isValidData (some c) = true) :
    getDisplayCampus item =
      (if hasCI (jsTrim c) "szabist" && hasCI (jsTrim c) "university" then
        "SZABIST University Campus"
      else jsTrim c) := by
  simp only [getDisplayCampus, hc]
  rw [if_pos hv, orEmpty_some_of_ne (valid_ne_empty hv)]

theorem displayRoom_of_valid {item : TimetableItem} {r : String}
    (hcourse : ¬ orEmpty item.course = "CSCL 2205") (hr : item.room = some r)
    (hv : isValidData (some r) = true) (ht : ¬ jsToUpper r = "TBD") :
    getDisplayRoom item = r := by
  simp only [getDisplayRoom, hr]
  have hin : (if r ≠ "" ∧ jsToUpper r = "TBD" then "Online" else r) = r :=
    if_neg (fun hand => ht hand.2)
  rw [if_neg hcourse, hin, if_pos hv]
  exact orEmpty_some_of_ne (valid_ne_empty hv)

/-- C10.  A valid campus is trimmed; if the trimmed value mentions both
szabist and university case-insensitively it is canonicalized to the fixed
campus name, otherwise it is returned trimmed but unchanged. -/
theorem getDisplayCampus_canonicalizes :
    ∀ (item : TimetableItem) (c : String), item.campus = some c →
      isValidData (some c) = true →
      getDisplayCampus item =
        (if hasCI (jsTrim c) "szabist" && hasCI (jsTrim c) "university" then
          "SZABIST University Campus"
        else jsTrim c) :=
  fun _ _ hc hv => displayCampus_of_valid hc hv

/-- C10, witness: a lowercase szabist variant is canonicalized, another
campus is only trimmed. -/
theorem getDisplayCampus_canonicalizes_witness :
    getDisplayCampus { campus := some " szabist University Karachi " } =
      "SZABIST University Campus" ∧
    getDisplayCampus { campus := some " Main Campus " } = "Main Campus" :=
  ⟨(getDisplayCampus_canonicalizes _ " szabist University Karachi " rfl (by decide)).trans
      (by decide),
   (getDisplayCampus_canonicalizes _ " Main Campus " rfl (by decide)).trans (by decide)⟩

/-- C6, counterexample.  CSCL 2205 has a validly extracted room and the
display layer still replaces it by the override "Lab 02". -/
theorem valid_room_overwritten_counterexample :
    isValidData (some "Room 101") = true ∧
    getDisplayRoom { course := some "CSCL 2205", room := some "Room 101" } = "Lab 02" ∧
    ¬ ("Lab 02" : String) = "Room 101" := by
  decide

/-- C6, amended.  A validly extracted time, faculty or course title is never
overwritten; a validly extracted room is never overwritten unless the course
is CSCL 2205 (whose override always wins) or the room spells TBD in some
casing (which is rewritten to "Online"); a validly extracted campus is
trimmed, and canonicalized when it is a SZABIST University variant. -/
theorem valid_fields_preserved (item : TimetableItem) :
    (∀ t, item.time = some t → isValidData (some t) = true → getDisplayTime item = t) ∧
    (∀ f, item.faculty = some f → isValidData (some f) = true → getDisplayFaculty item = f) ∧
    (∀ ti, item.course_title = some ti → isValidData (some ti) = true →
      getDisplayCourseTitle item = ti) ∧
    (∀ r, item.room = some r → isValidData (some r) = true →
      ¬ orEmpty item.course = "CSCL 2205" → ¬ jsToUpper r = "TBD" →
      getDisplayRoom item = r) ∧
    (∀ c, item.campus = some c → isValidData (some c) = true →
      getDisplayCampus item =
        (if hasCI (jsTrim c) "szabist" && hasCI (jsTrim c) "university" then
          "SZABIST University Campus"
        else jsTrim c)) :=
  ⟨fun _ ht hv => displayTime_of_valid ht hv,
   fun _ hf hv => displayFaculty_of_valid hf hv,
   fun _ hti hv => displayTitle_of_valid hti hv,
   fun _ hr hv hcourse htbd => displayRoom_of_valid hcourse hr hv htbd,
   fun _ hc hv => displayCampus_of_valid hc hv⟩

/-- A concrete record with every field validly extracted. -/
def sampleValidItem : TimetableItem :=
  { course := some "CS 101"
    course_title := some "Intro to Computing"
    faculty := some "John Doe"
    room := some "NB-1"
    time := some "08:00 AM - 11:00 AM"
    campus := some "Main Campus" }

/-- C6, witness at a fully valid record. -/
theorem valid_fields_preserved_witness :
    getDisplayTime sampleValidItem = "08:00 AM - 11:00 AM" ∧
    getDisplayRoom sampleValidItem = "NB-1" :=
  ⟨(valid_fields_preserved sampleValidItem).1 _ rfl (by decide),
   (valid_fields_preserved sampleValidItem).2.2.2.1 _ rfl (by decide) (by decide) (by decide)⟩

/-! ### Normalization parity of semester labels -/

theorem semVariant_norm_eq {s t : List Char} (h : SemVariant s t) :
    (s.filter (fun c => !(isJsSpace c || c = '-'))).map Char.toLower =
      (t.filter (fun c => !(isJsSpace c || c = '-'))).map Char.toLower := by
  induction h with
  | nil => rfl
  | keep h1 h2 h3 _ ih =>
    rw [List.filter_cons, List.filter_cons]
    simp only [h2, h3, Bool.not_false, if_true, List.map_cons]
    rw [h1, ih]
  | insL h1 _ ih =>
    rw [List.filter_cons]
    simp only [h1, Bool.not_true, if_false]
    exact ih
  | insR h1 _ ih =>
    rw [List.filter_cons]
    simp only [h1, Bool.not_true, if_false]
    exact ih

/-- C5.  Normalization parity: a semester label and any whitespace-, hyphen-
and case-variant of it normalize identically, and the matcher of
SummaryStats, which normalizes both sides before the exact comparison,
finds the variant. -/
theorem semester_normalization_parity (s t : String) (h : SemVariant s.data t.data) :
    normalizeSemester s = normalizeSemester t ∧
    semesterKeyMatches [t] s = some t := by
  have he : normalizeSemester s = normalizeSemester t :=
    String.ext (semVariant_norm_eq h)
  refine ⟨he, ?_⟩
  simp [semesterKeyMatches, List.find?, he]

/-- C5, witness: the spellings "Fall-24" and " fall 24" are variants and
normalize to the same label, which the matcher accepts. -/
theorem semester_normalization_parity_witness :
    normalizeSemester "Fall-24" = normalizeSemester " fall 24" ∧
    semesterKeyMatches [" fall 24"] "Fall-24" = some " fall 24" := by
  refine semester_normalization_parity "Fall-24" " fall 24" ?_
  apply SemVariant.insR (by decide)
  apply SemVariant.keep (by decide) (by decide) (by decide)
  apply SemVariant.keep (by decide) (by decide) (by decide)
  apply SemVariant.keep (by decide) (by decide) (by decide)
  apply SemVariant.keep (by decide) (by decide) (by decide)
  apply SemVariant.insL (by decide)
  apply SemVariant.insR (by decide)
  apply SemVariant.keep (by decide) (by decide) (by decide)
  apply SemVariant.keep (by decide) (by decide) (by decide)
  exact SemVariant.nil

/-! ### The ordered room patterns -/

/-- C8, counterexample.  A text whose only matching candidate is the TBD
literal does not yield the matched value: the scan rewrites it to
"Online". -/
theorem extractRoom_tbd_counterexample :
    extractRoomFromRawData { full_text := some "TBD" } = some "Online" ∧
    ¬ (some ("Online" : String) = some ("TBD" : String)) := by
  decide

/-- C8, amended.  The candidate patterns are applied in the stated order
with first-match-wins over the whole raw text (a Lab-number match beats a
bare 3-digit match appearing earlier in the text, and the Online/Virtual
literal beats the Cancelled literal), except that a matched value spelling
TBD in any casing is returned as "Online" rather than as the match. -/
theorem extractRoom_order_amended :
    (∀ (item : TimetableItem) (m : List Char),
      scanPat patLabNum none (rawTextOf item).data = some m →
      extractRoomFromRawData item = some (tbdToOnline ⟨m⟩)) ∧
    extractRoomFromRawData { full_text := some "302 Lab 05" } = some "Lab 05" ∧
    extractRoomFromRawData { full_text := some "TBD" } = some "Online" ∧
    extractRoomFromRawData { full_text := some "Room 101" } = some "Room 101" ∧
    extractRoomFromRawData { full_text := some "Cancelled online" } = some "online" := by
  refine ⟨?_, by decide, by decide, by decide, by decide⟩
  intro item m hm
  have hne : ¬ rawTextOf item = "" := by
    intro h0
    rw [h0] at hm
    exact Option.noConfusion hm
  unfold extractRoomFromRawData
  rw [if_neg hne]
  simp only [roomPatterns, firstPat, hm]

/-! ### The empty semester allow-list -/

/-- The summary block of a schedule snapshot (frontend/src/types/api.ts). -/
structure Summary where
  total_items : Nat
  unique_courses : Nat
  unique_faculty : Nat
deriving DecidableEq, Repr

/-- Modelled from the spec: the backend SemesterMatcher filter (the Python
backend is not among the repository files provided; section 4.3 of the
specification defines the filter as exact equality of normalized forms,
with the empty allow-list excluding every record). -/
def filterBySemesters (allowed : List String) (items : List TimetableItem) :
    List TimetableItem :=
  items.filter (fun i =>
    allowed.any (fun a => normalizeSemester a = normalizeSemester (orEmpty i.semester)))

/-- Modelled from the spec: the summary block RecordAssembler computes over
the final item list (section 4.5: total count, distinct course codes,
distinct faculty names). -/
def summaryOf (items : List TimetableItem) : Summary :=
  { total_items := items.length
    unique_courses := ((items.map (fun i => orEmpty i.course)).dedup).length
    unique_faculty := ((items.map (fun i => orEmpty i.faculty)).dedup).length }

/-- The configuration record the frontend reads
(frontend/src/types/api.ts). -/
structure ConfigData where
  gmail_query : String := ""
  semester_filter : List String := []
  schedule_time : String := ""
  timezone : String := ""
  max_results : Nat := 0
deriving DecidableEq, Repr

/-- The guard of SummaryStats.tsx: with no configuration or an empty
semester_filter, every displayed statistic is zeroed. -/
def displaySummary (config : Option ConfigData) (summary : Summary) : Summary :=
  let noSemestersConfigured :=
    match config with
    | none => true
    | some c => c.semester_filter.isEmpty
  if noSemestersConfigured then
    { total_items := 0, unique_courses := 0, unique_faculty := 0 }
  else summary

/-- C3.  An empty allow-list shows nothing: the filter drops every record
whatever the source contained, the summary over the filtered list counts
zero items, and the SummaryStats component displays zero for any summary
when the configured filter is empty or missing. -/
theorem empty_allowlist_shows_nothing :
    (∀ items : List TimetableItem,
      filterBySemesters [] items = [] ∧
      (summaryOf (filterBySemesters [] items)).total_items = 0) ∧
    (∀ s : Summary,
      (displaySummary (some { semester_filter := [] }) s).total_items = 0 ∧
      (displaySummary none s).total_items = 0) := by
  constructor
  · intro items
    have h : filterBySemesters [] items = [] := by
      simp [filterBySemesters]
    exact ⟨h, by rw [h]; rfl⟩
  · intro s
    exact ⟨rfl, rfl⟩

/-! ### Validity of the corrected display values -/

theorem mk_eq_empty_iff {l : List Char} : (⟨l⟩ : String) = "" ↔ l = [] := by
  constructor
  · intro h
    exact congrArg String.data h
  · intro h
    subst h
    rfl

theorem jsTrim_ne_of_mem {s : String} {c : Char}
    (hc : c ∈ s.data) (hsp : isJsSpace c = false) : ¬ jsTrim s = "" := by
  intro h
  exact trimChars_ne_nil hc hsp (mk_eq_empty_iff.mp h)

theorem valid_of_mem_char {s : String} {c : Char}
    (hc : c ∈ s.data) (h1 : ¬ c ∈ ("null" : String).data)
    (h2 : ¬ c ∈ ("undefined" : String).data) (hsp : isJsSpace c = false) :
    isValidData (some s) = true :=
  isValidData_intro (str_ne_of_char hc h1) (str_ne_of_char hc h2)
    (jsTrim_ne_of_mem hc hsp)

theorem generateCourseTitle_valid (item : TimetableItem) :
    isValidData (some (generateCourseTitle item)) = true := by
  unfold generateCourseTitle
  by_cases h0 : orEmpty item.course = ""
  · rw [if_pos h0]; decide
  · rw [if_neg h0]
    cases hf : findDeptNum (orEmpty item.course).data with
    | none =>
      have hc : 'C' ∈ ("Course: " ++ orEmpty item.course).data := by
        rw [String.data_append]
        exact List.mem_append_left _ (by decide)
      exact valid_of_mem_char hc (by decide) (by decide) (by decide)
    | some p =>
      rcases p with ⟨dept, num⟩
      dsimp only
      by_cases hl : dept.getLast? = some 'L'
      · rw [if_pos hl]
        have hc : 'L' ∈ (jsOr (departmentNames.lookup ⟨dept.dropLast⟩) ⟨dept.dropLast⟩ ++
            " Lab " ++ (⟨num⟩ : String)).data := by
          rw [String.data_append, String.data_append]
          exact List.mem_append_left _ (List.mem_append_right _ (by decide))
        exact valid_of_mem_char hc (by decide) (by decide) (by decide)
      · rw [if_neg hl]
        have hc : 'C' ∈ (jsOr (departmentNames.lookup ⟨dept⟩) ⟨dept⟩ ++
            " Course " ++ (⟨num⟩ : String)).data := by
          rw [String.data_append, String.data_append]
          exact List.mem_append_left _ (List.mem_append_right _ (by decide))
        exact valid_of_mem_char hc (by decide) (by decide) (by decide)

theorem generateTimeFallback_cases (item : TimetableItem) :
    generateTimeFallback item = "TBD (Lab Session - 3 hours)" ∨
    generateTimeFallback item = "TBD" := by
  unfold generateTimeFallback
  by_cases h : hasCI (orEmpty item.course ++ " " ++ orEmpty item.course_title) "lab" = true
  · rw [if_pos h]; exact Or.inl rfl
  · rw [if_neg h]; exact Or.inr rfl

theorem gcv_noncscl {item : TimetableItem} (hc : ¬ orEmpty item.course = "CSCL 2205")
    (field : CField) :
    getCorrectedValue field item =
      (match field with
       | .room =>
         match extractRoomFromRawData item with
         | some r => if r = "" then correctedSwitch .room item else some r
         | none => correctedSwitch .room item
       | f => correctedSwitch f item) := by
  unfold getCorrectedValue
  rw [table_none hc]

theorem generateCampusFallback_const (item : TimetableItem) :
    generateCampusFallback item = "SZABIST University Campus" := by
  unfold generateCampusFallback
  dsimp only
  cases hfind :
      campusPatterns.find?
        (fun p => listContains (jsToUpper (jsOr item.semester (jsOr item.class_section ""))).data
          p.1.data) with
  | none => rfl
  | some p =>
    have hmem := List.mem_of_find?_eq_some hfind
    simp only [campusPatterns, List.mem_cons, List.not_mem_nil, or_false] at hmem
    rcases hmem with rfl | rfl | rfl | rfl <;> rfl

theorem getDisplayTime_valid (item : TimetableItem) :
    isValidData (some (getDisplayTime item)) = true := by
  unfold getDisplayTime
  by_cases hv : isValidData item.time = true
  · rw [if_pos hv]
    cases ht : item.time with
    | none => rw [ht] at hv; cases hv
    | some t =>
      rw [ht] at hv
      rw [orEmpty_some_of_ne (valid_ne_empty hv)]
      exact hv
  · rw [if_neg hv]
    by_cases hc : orEmpty item.course = "CSCL 2205"
    · rw [gcv_time_cscl hc]; decide
    · rw [gcv_noncscl hc CField.time]
      rcases generateTimeFallback_cases item with h | h <;>
        simp only [correctedSwitch, h] <;> decide

theorem getDisplayFaculty_valid (item : TimetableItem) :
    isValidData (some (getDisplayFaculty item)) = true := by
  unfold getDisplayFaculty
  by_cases hv : isValidData item.faculty = true
  · rw [if_pos hv]
    cases hf : item.faculty with
    | none => rw [hf] at hv; cases hv
    | some f =>
      rw [hf] at hv
      rw [orEmpty_some_of_ne (valid_ne_empty hv)]
      exact hv
  · rw [if_neg hv, gcv_faculty_eq]
    decide

theorem getDisplayCourseTitle_valid (item : TimetableItem) :
    isValidData (some (getDisplayCourseTitle item)) = true := by
  unfold getDisplayCourseTitle
  by_cases hv : isValidData item.course_title = true
  · rw [if_pos hv]
    cases ht : item.course_title with
    | none => rw [ht] at hv; cases hv
    | some t =>
      rw [ht] at hv
      rw [orEmpty_some_of_ne (valid_ne_empty hv)]
      exact hv
  · rw [if_neg hv]
    exact generateCourseTitle_valid item

theorem displayCampus_invalid_eq {item : TimetableItem}
    (hv : ¬ isValidData item.campus = true) :
    getDisplayCampus item = "SZABIST University Campus" := by
  unfold getDisplayCampus
  rw [if_neg hv]
  by_cases hc : orEmpty item.course = "CSCL 2205"
  · rw [gcv_campus_cscl hc]; rfl
  · rw [gcv_noncscl hc CField.campus]
    simp only [correctedSwitch, generateCampusFallback_const]
    rfl

/-! ### Idempotence machinery for the room display -/

theorem tbdToOnline_upper_ne (m : String) : ¬ jsToUpper (tbdToOnline m) = "TBD" := by
  unfold tbdToOnline
  by_cases h : jsToUpper m = "TBD"
  · rw [if_pos h]; decide
  · rw [if_neg h]; exact h

theorem extract_some_upper_ne {item : TimetableItem} {r : String}
    (h : extractRoomFromRawData item = some r) : ¬ jsToUpper r = "TBD" := by
  unfold extractRoomFromRawData at h
  by_cases h0 : rawTextOf item = ""
  · rw [if_pos h0] at h; cases h
  · rw [if_neg h0] at h
    cases hf : firstPat roomPatterns (rawTextOf item).data with
    | none => rw [hf] at h; cases h
    | some mt =>
      rw [hf] at h
      obtain rfl : tbdToOnline ⟨mt⟩ = r := Option.some.inj h
      exact tbdToOnline_upper_ne _

theorem fallbackScan_some_upper_ne {item : TimetableItem} {r : String}
    (h : fallbackRawScan item = some r) : ¬ jsToUpper r = "TBD" := by
  unfold fallbackRawScan at h
  by_cases h0 : rawTextOf item = ""
  · rw [if_pos h0] at h; cases h
  · rw [if_neg h0] at h
    cases hf : firstPat fallbackRoomPatterns (rawTextOf item).data with
    | none => rw [hf] at h; cases h
    | some mt =>
      rw [hf] at h
      obtain rfl : tbdToOnline ⟨mt⟩ = r := Option.some.inj h
      exact tbdToOnline_upper_ne _

theorem extract_correctAll (item : TimetableItem) :
    extractRoomFromRawData (correctAll item) = extractRoomFromRawData item := rfl

theorem fallbackRawScan_correctAll (item : TimetableItem) :
    fallbackRawScan (correctAll item) = fallbackRawScan item := rfl

theorem grf_of_rawScan {item : TimetableItem} {r : String}
    (h : fallbackRawScan item = some r) : generateRoomFallback item = r := by
  unfold generateRoomFallback
  rw [h]

theorem gcv_room_of_falsy {item : TimetableItem}
    (hc : ¬ orEmpty item.course = "CSCL 2205")
    (he : extractRoomFromRawData item = none ∨ extractRoomFromRawData item = some "") :
    getCorrectedValue .room item = some (generateRoomFallback item) := by
  rw [gcv_noncscl hc CField.room]
  rcases he with h | h <;> rw [h] <;> rfl

/-- Evaluation of getDisplayRoom for a non-CSCL record whose room is a
present string that does not spell TBD. -/
theorem displayRoom_eval {item : TimetableItem} {r : String}
    (hc : ¬ orEmpty item.course = "CSCL 2205")
    (hr : item.room = some r)
    (hup : ¬ jsToUpper r = "TBD") :
    getDisplayRoom item =
      (if isValidData (some r) = true then r
       else
        match extractRoomFromRawData item with
        | some er => if er = "" then jsOr (getCorrectedValue .room item) "TBD" else er
        | none => jsOr (getCorrectedValue .room item) "TBD") := by
  simp only [getDisplayRoom, hr]
  have hin : (if r ≠ "" ∧ jsToUpper r = "TBD" then "Online" else r) = r :=
    if_neg (fun hand => hup hand.2)
  rw [hin, if_neg hc]
  by_cases hv : isValidData (some r) = true
  · rw [if_pos hv, if_pos hv]
    exact orEmpty_some_of_ne (valid_ne_empty hv)
  · rw [if_neg hv, if_neg hv]

/-- The values the room fallback path can produce: the raw re-scan value,
or one of the fixed default strings. -/
theorem fallback_value_cases {item : TimetableItem} {R : String}
    (hc : ¬ orEmpty item.course = "CSCL 2205")
    (he : extractRoomFromRawData item = none ∨ extractRoomFromRawData item = some "")
    (hR : jsOr (getCorrectedValue .room item) "TBD" = R) :
    (fallbackRawScan item = some R ∧ ¬ R = "" ∧ ¬ jsToUpper R = "TBD") ∨
    R ∈ (["Online", "Computer Lab (TBD)", "Digital Lab", "Lab (TBD)", "TBD"] : List String) := by
  rw [gcv_room_of_falsy hc he] at hR
  cases hscan : fallbackRawScan item with
  | some rr =>
    rw [grf_of_rawScan hscan] at hR
    by_cases hrr : rr = ""
    · subst hrr
      simp only [jsOr, if_pos rfl] at hR
      subst hR
      right; decide
    · simp only [jsOr, if_neg hrr] at hR
      subst hR
      exact Or.inl ⟨rfl, hrr, fallbackScan_some_upper_ne hscan⟩
  | none =>
    right
    have hg : generateRoomFallback item =
        (if hasCI (orEmpty item.course ++ " " ++ orEmpty item.course_title) "online" ||
            hasCI (orEmpty item.course ++ " " ++ orEmpty item.course_title) "virtual" ||
            hasCI (orEmpty item.course ++ " " ++ orEmpty item.course_title) "distance" then
          "Online"
        else if hasCI (orEmpty item.course ++ " " ++ orEmpty item.course_title) "lab" then
          labDefaultRoom (orEmpty item.course_title)
        else "TBD") := by
      unfold generateRoomFallback
      rw [hscan]
    rw [hg] at hR
    by_cases h1 : (hasCI (orEmpty item.course ++ " " ++ orEmpty item.course_title) "online" ||
        hasCI (orEmpty item.course ++ " " ++ orEmpty item.course_title) "virtual" ||
        hasCI (orEmpty item.course ++ " " ++ orEmpty item.course_title) "distance") = true
    · rw [if_pos h1] at hR
      simp only [jsOr] at hR
      rw [if_neg (by decide : ¬ ("Online" : String) = "")] at hR
      subst hR; decide
    · rw [if_neg h1] at hR
      by_cases h2 :
          hasCI (orEmpty item.course ++ " " ++ orEmpty item.course_title) "lab" = true
      · rw [if_pos h2] at hR
        unfold labDefaultRoom at hR
        by_cases h3 : (hasCI (orEmpty item.course_title) "computer" ||
            hasCI (orEmpty item.course_title) "cs") = true
        · rw [if_pos h3] at hR
          simp only [jsOr] at hR
          rw [if_neg (by decide : ¬ ("Computer Lab (TBD)" : String) = "")] at hR
          subst hR; decide
        · rw [if_neg h3] at hR
          by_cases h4 : hasCI (orEmpty item.course_title) "digital" = true
          · rw [if_pos h4] at hR
            simp only [jsOr] at hR
            rw [if_neg (by decide : ¬ ("Digital Lab" : String) = "")] at hR
            subst hR; decide
          · rw [if_neg h4] at hR
            simp only [jsOr] at hR
            rw [if_neg (by decide : ¬ ("Lab (TBD)" : String) = "")] at hR
            subst hR; decide
      · rw [if_neg h2] at hR
        simp only [jsOr] at hR
        rw [if_neg (by decide : ¬ ("TBD" : String) = "")] at hR
        subst hR; decide

/-- Provenance of the room a non-CSCL record displays: a validly present
room, the extractor's value, the fallback re-scan's value, or one of the
fixed fallback strings. -/
theorem displayRoom_cases {item : TimetableItem}
    (hc : ¬ orEmpty item.course = "CSCL 2205") :
    (isValidData (some (getDisplayRoom item)) = true ∧
      ¬ jsToUpper (getDisplayRoom item) = "TBD") ∨
    (extractRoomFromRawData item = some (getDisplayRoom item) ∧
      ¬ getDisplayRoom item = "" ∧ ¬ jsToUpper (getDisplayRoom item) = "TBD") ∨
    ((extractRoomFromRawData item = none ∨ extractRoomFromRawData item = some "") ∧
      ((fallbackRawScan item = some (getDisplayRoom item) ∧
         ¬ getDisplayRoom item = "" ∧ ¬ jsToUpper (getDisplayRoom item) = "TBD") ∨
       getDisplayRoom item ∈
         (["Online", "Computer Lab (TBD)", "Digital Lab", "Lab (TBD)", "TBD"] :
           List String))) := by
  obtain ⟨R, hRdef⟩ : ∃ R, getDisplayRoom item = R := ⟨_, rfl⟩
  rw [hRdef]
  unfold getDisplayRoom at hRdef
  rw [if_neg hc] at hRdef
  cases hroom : item.room with
  | none =>
    rw [hroom] at hRdef
    dsimp only at hRdef
    rw [if_neg (by decide : ¬ isValidData none = true)] at hRdef
    cases hex : extractRoomFromRawData item with
    | some er =>
      rw [hex] at hRdef
      dsimp only at hRdef
      by_cases her : er = ""
      · subst her
        rw [if_pos rfl] at hRdef
        exact Or.inr (Or.inr ⟨Or.inr rfl, fallback_value_cases hc (Or.inr hex) hRdef⟩)
      · rw [if_neg her] at hRdef
        subst hRdef
        exact Or.inr (Or.inl ⟨rfl, her, extract_some_upper_ne hex⟩)
    | none =>
      rw [hex] at hRdef
      dsimp only at hRdef
      exact Or.inr (Or.inr ⟨Or.inl rfl, fallback_value_cases hc (Or.inl hex) hRdef⟩)
  | some r =>
    rw [hroom] at hRdef
    dsimp only at hRdef
    by_cases hcond : (¬ r = "" ∧ jsToUpper r = "TBD")
    · rw [if_pos hcond] at hRdef
      rw [if_pos (by decide : isValidData (some "Online") = true)] at hRdef
      have honl : ("Online" : String) = R := by
        rw [← hRdef]; decide
      subst honl
      left
      exact ⟨by decide, by decide⟩
    · rw [if_neg hcond] at hRdef
      by_cases hv : isValidData (some r) = true
      · rw [if_pos hv, orEmpty_some_of_ne (valid_ne_empty hv)] at hRdef
        subst hRdef
        left
        refine ⟨hv, ?_⟩
        intro hu
        exact hcond ⟨valid_ne_empty hv, hu⟩
      · rw [if_neg hv] at hRdef
        cases hex : extractRoomFromRawData item with
        | some er =>
          rw [hex] at hRdef
          dsimp only at hRdef
          by_cases her : er = ""
          · subst her
            rw [if_pos rfl] at hRdef
            exact Or.inr (Or.inr ⟨Or.inr rfl, fallback_value_cases hc (Or.inr hex) hRdef⟩)
          · rw [if_neg her] at hRdef
            subst hRdef
            exact Or.inr (Or.inl ⟨rfl, her, extract_some_upper_ne hex⟩)
        | none =>
          rw [hex] at hRdef
          dsimp only at hRdef
          exact Or.inr (Or.inr ⟨Or.inl rfl, fallback_value_cases hc (Or.inl hex) hRdef⟩)

/-- Second application of the room display returns the first result
unchanged, provided the first result is not the literal "TBD". -/
theorem room_idem {item : TimetableItem} (hR : ¬ getDisplayRoom item = "TBD") :
    getDisplayRoom (correctAll item) = getDisplayRoom item := by
  by_cases hc : orEmpty item.course = "CSCL 2205"
  · have h1 : getDisplayRoom item = "Lab 02" := by
      unfold getDisplayRoom
      rw [if_pos hc, gcv_room_cscl hc]
      rfl
    have hc2 : orEmpty (correctAll item).course = "CSCL 2205" := hc
    have h2 : getDisplayRoom (correctAll item) = "Lab 02" := by
      unfold getDisplayRoom
      rw [if_pos hc2, gcv_room_cscl hc2]
      rfl
    rw [h1, h2]
  · have hc' : ¬ orEmpty (correctAll item).course = "CSCL 2205" := hc
    rcases displayRoom_cases hc with ⟨hv, hup⟩ | ⟨hex, hne, hup⟩ | ⟨hfal, hrest⟩
    · exact displayRoom_of_valid hc' rfl hv hup
    · rw [displayRoom_eval hc' rfl hup]
      by_cases hv : isValidData (some (getDisplayRoom item)) = true
      · rw [if_pos hv]
      · rw [if_neg hv, extract_correctAll, hex]
        dsimp only
        rw [if_neg hne]
    · rcases hrest with ⟨hscan, hne, hup⟩ | hmem
      · rw [displayRoom_eval hc' rfl hup]
        by_cases hv : isValidData (some (getDisplayRoom item)) = true
        · rw [if_pos hv]
        · rw [if_neg hv, extract_correctAll]
          have hfal' : extractRoomFromRawData (correctAll item) = none ∨
              extractRoomFromRawData (correctAll item) = some "" := by
            rw [extract_correctAll]; exact hfal
          have hgcv := gcv_room_of_falsy hc' hfal'
          have hscan' : fallbackRawScan (correctAll item) = some (getDisplayRoom item) := by
            rw [fallbackRawScan_correctAll]; exact hscan
          have hgrf := grf_of_rawScan hscan'
          rcases hfal with h | h <;> rw [h] <;> dsimp only
          · rw [hgcv, hgrf]
            simp only [jsOr]
            rw [if_neg hne]
          · rw [if_pos rfl, hgcv, hgrf]
            simp only [jsOr]
            rw [if_neg hne]
      · simp only [List.mem_cons, List.not_mem_nil, or_false] at hmem
        rcases hmem with h | h | h | h | h
        · exact h ▸ displayRoom_of_valid hc' (h ▸ rfl) (by decide) (by decide)
        · exact h ▸ displayRoom_of_valid hc' (h ▸ rfl) (by decide) (by decide)
        · exact h ▸ displayRoom_of_valid hc' (h ▸ rfl) (by decide) (by decide)
        · exact h ▸ displayRoom_of_valid hc' (h ▸ rfl) (by decide) (by decide)
        · exact absurd h hR

/-- Second application of the campus display is the identity, provided the
original campus does not trim to one of the literals the validity predicate
rejects untrimmed. -/
theorem campus_idem {item : TimetableItem}
    (hok : ∀ c, item.campus = some c → ¬ jsTrim c = "null" ∧ ¬ jsTrim c = "undefined") :
    getDisplayCampus (correctAll item) = getDisplayCampus item := by
  by_cases hv : isValidData item.campus = true
  · cases hcam : item.campus with
    | none => rw [hcam] at hv; cases hv
    | some c =>
      rw [hcam] at hv
      have hout := displayCampus_of_valid hcam hv
      by_cases hcond : (hasCI (jsTrim c) "szabist" && hasCI (jsTrim c) "university") = true
      · rw [if_pos hcond] at hout
        have h2 : (correctAll item).campus = some (getDisplayCampus item) := rfl
        rw [hout] at h2
        have hsecond := displayCampus_of_valid h2 (by decide)
        rw [hsecond, hout]
        decide
      · rw [if_neg hcond] at hout
        have h2 : (correctAll item).campus = some (getDisplayCampus item) := rfl
        rw [hout] at h2
        have hvalid2 : isValidData (some (jsTrim c)) = true := by
          rcases hok c hcam with ⟨hn, hu⟩
          refine isValidData_intro hn hu ?_
          rw [jsTrim_idem]
          exact ((isValidData_some_iff c).mp hv).2.2
        have hsecond := displayCampus_of_valid h2 hvalid2
        rw [hsecond, hout, jsTrim_idem, if_neg hcond]
  · have h1 : getDisplayCampus item = "SZABIST University Campus" :=
      displayCampus_invalid_eq hv
    have h2 : (correctAll item).campus = some (getDisplayCampus item) := rfl
    rw [h1] at h2
    have hsecond := displayCampus_of_valid h2 (by decide)
    rw [hsecond, h1]
    decide

/-- C1, counterexample.  A record whose room is corrected to the sentinel
"TBD" is not a fixed point: a second application of the room display turns
"TBD" into "Online". -/
theorem correction_not_idempotent_counterexample :
    getDisplayRoom { course := some "XYZ 9" } = "TBD" ∧
    getDisplayRoom (correctAll { course := some "XYZ 9" }) = "Online" ∧
    ¬ ("Online" : String) = "TBD" := by
  decide

/-- C1, amended.  Applying the display layer to an already-corrected record
changes nothing, except in the two cases the code carves out: a room whose
corrected value is the literal "TBD" becomes "Online" on the second pass,
and a campus whose original value trims to the literal "null" or
"undefined" is trimmed to that literal and then replaced by the campus
fallback on the second pass.  Away from those two cases every display
function is idempotent. -/
theorem correction_idempotent (item : TimetableItem)
    (hroom : ¬ getDisplayRoom item = "TBD")
    (hcampus : ∀ c, item.campus = some c →
      ¬ jsTrim c = "null" ∧ ¬ jsTrim c = "undefined") :
    getDisplayTime (correctAll item) = getDisplayTime item ∧
    getDisplayRoom (correctAll item) = getDisplayRoom item ∧
    getDisplayFaculty (correctAll item) = getDisplayFaculty item ∧
    getDisplayCampus (correctAll item) = getDisplayCampus item ∧
    getDisplayCourseTitle (correctAll item) = getDisplayCourseTitle item :=
  ⟨displayTime_of_valid rfl (getDisplayTime_valid item),
   room_idem hroom,
   displayFaculty_of_valid rfl (getDisplayFaculty_valid item),
   campus_idem hcampus,
   displayTitle_of_valid rfl (getDisplayCourseTitle_valid item)⟩

/-- C1, witness at a fully valid record. -/
theorem correction_idempotent_witness :
    getDisplayTime (correctAll sampleValidItem) = getDisplayTime sampleValidItem ∧
    getDisplayRoom (correctAll sampleValidItem) = getDisplayRoom sampleValidItem ∧
    getDisplayFaculty (correctAll sampleValidItem) = getDisplayFaculty sampleValidItem ∧
    getDisplayCampus (correctAll sampleValidItem) = getDisplayCampus sampleValidItem ∧
    getDisplayCourseTitle (correctAll sampleValidItem) =
      getDisplayCourseTitle sampleValidItem :=
  correction_idempotent sampleValidItem (by decide)
    (by
      intro c h
      cases h
      exact ⟨by decide, by decide⟩)

/-! ### The code-point order is a total preorder -/

theorem strLeB_total : ∀ a b : List Char, strLeB a b = true ∨ strLeB b a = true := by
  intro a
  induction a with
  | nil => intro b; left; rfl
  | cons x xs ih =>
    intro b
    cases b with
    | nil => right; rfl
    | cons y ys =>
      by_cases h1 : x.toNat < y.toNat
      · left; simp [strLeB, h1]
      · by_cases h2 : y.toNat < x.toNat
        · right; simp [strLeB, h2]
        · rcases ih ys with h | h
          · left; simp [strLeB, h1, h2, h]
          · right; simp [strLeB, h1, h2, h]

theorem strLeB_trans :
    ∀ a b c : List Char, strLeB a b = true → strLeB b c = true → strLeB a c = true := by
  intro a
  induction a with
  | nil => intro b c _ _; rfl
  | cons x xs ih =>
    intro b c hab hbc
    cases b with
    | nil => simp [strLeB] at hab
    | cons y ys =>
      cases c with
      | nil => simp [strLeB] at hbc
      | cons z zs =>
        simp only [strLeB] at hab hbc ⊢
        by_cases hxy : x.toNat < y.toNat
        · by_cases hyz : y.toNat < z.toNat
          · have hxz : x.toNat < z.toNat := Nat.lt_trans hxy hyz
            simp [hxz]
          · by_cases hzy : z.toNat < y.toNat
            · rw [if_neg hyz, if_pos hzy] at hbc
              cases hbc
            · have hyz' : y.toNat = z.toNat := Nat.le_antisymm (Nat.le_of_not_lt hzy) (Nat.le_of_not_lt hyz)
              have hxz : x.toNat < z.toNat := hyz' ▸ hxy
              simp [hxz]
        · by_cases hyx : y.toNat < x.toNat
          · simp [hxy, hyx] at hab
          · have hxy' : x.toNat = y.toNat := Nat.le_antisymm (Nat.le_of_not_lt hyx) (Nat.le_of_not_lt hxy)
            rw [if_neg hxy, if_neg hyx] at hab
            by_cases hyz : y.toNat < z.toNat
            · have hxz : x.toNat < z.toNat := hxy' ▸ hyz
              simp [hxz]
            · by_cases hzy : z.toNat < y.toNat
              · simp [hyz, hzy] at hbc
              · rw [if_neg (by omega), if_neg (by omega)] at hbc
                rw [if_neg (by omega), if_neg (by omega)]
                exact ih ys zs hab hbc

theorem strLeB_eq_or_ltB :
    ∀ a b : List Char, strLeB a b = true → a = b ∨ strLtB a b = true := by
  intro a
  induction a with
  | nil =>
    intro b _
    cases b with
    | nil => left; rfl
    | cons y ys => right; rfl
  | cons x xs ih =>
    intro b hab
    cases b with
    | nil => simp [strLeB] at hab
    | cons y ys =>
      simp only [strLeB] at hab
      by_cases hxy : x.toNat < y.toNat
      · right; simp [strLtB, hxy]
      · by_cases hyx : y.toNat < x.toNat
        · simp [hxy, hyx] at hab
        · rw [if_neg (by omega), if_neg (by omega)] at hab
          have hx : x = y := Char.eq_of_val_eq (UInt32.ext (show x.toNat = y.toNat by omega))
          rcases ih ys hab with h | h
          · left; rw [hx, h]
          · right
            simp only [strLtB]
            rw [if_neg (by omega), if_neg (by omega)]
            exact h

theorem strLe_lt_of_ne {a b : String} (hle : strLe a b) (hne : ¬ a = b) : strLt a b := by
  rcases strLeB_eq_or_ltB a.data b.data hle with h | h
  · exact absurd (String.ext h) hne
  · exact h

instance : IsTotal String strLe :=
  ⟨fun a b => (strLeB_total a.data b.data).imp id id⟩

instance : IsTrans String strLe :=
  ⟨fun a b c => strLeB_trans a.data b.data c.data⟩

instance {courseLe : String → String → Prop} [IsTotal String courseLe] :
    IsTotal TimetableItem (itemLe courseLe) := by
  constructor
  intro a b
  rcases Nat.lt_trichotomy (parseTimeToMinutes (getDisplayTime a))
      (parseTimeToMinutes (getDisplayTime b)) with h | h | h
  · exact Or.inl (Or.inl h)
  · rcases total_of courseLe (orEmpty a.course) (orEmpty b.course) with hc | hc
    · exact Or.inl (Or.inr ⟨h, hc⟩)
    · exact Or.inr (Or.inr ⟨h.symm, hc⟩)
  · exact Or.inr (Or.inl h)

instance {courseLe : String → String → Prop} [IsTrans String courseLe] :
    IsTrans TimetableItem (itemLe courseLe) := by
  constructor
  intro a b c hab hbc
  rcases hab with h1 | ⟨h1, h1c⟩
  · rcases hbc with h2 | ⟨h2, _⟩
    · exact Or.inl (Nat.lt_trans h1 h2)
    · exact Or.inl (h2 ▸ h1)
  · rcases hbc with h2 | ⟨h2, h2c⟩
    · exact Or.inl (h1 ▸ h2)
    · exact Or.inr ⟨h1.trans h2, IsTrans.trans _ _ _ h1c h2c⟩

/-! ### The grouped rendering is a sorted permutation of its input -/

theorem insKey_nodup {ks : List String} {k : String} (h : ks.Nodup) :
    (insKey ks k).Nodup := by
  unfold insKey
  by_cases hm : k ∈ ks
  · rw [if_pos hm]; exact h
  · rw [if_neg hm]
    rw [List.nodup_append]
    exact ⟨h, List.nodup_singleton k, by simpa using hm⟩

theorem foldl_insKey_nodup :
    ∀ (items : List TimetableItem) (acc : List String), acc.Nodup →
      (items.foldl (fun ks i => insKey ks (semKey i)) acc).Nodup := by
  intro items
  induction items with
  | nil => intro acc h; exact h
  | cons a t ih => intro acc h; exact ih _ (insKey_nodup h)

theorem keysOf_nodup (items : List TimetableItem) : (keysOf items).Nodup :=
  foldl_insKey_nodup items [] List.nodup_nil

theorem mem_insKey_self (ks : List String) (k : String) : k ∈ insKey ks k := by
  unfold insKey
  by_cases hm : k ∈ ks
  · rw [if_pos hm]; exact hm
  · rw [if_neg hm]; simp

theorem mem_insKey_mono {x : String} {ks : List String} (h : x ∈ ks) (k : String) :
    x ∈ insKey ks k := by
  unfold insKey
  by_cases hm : k ∈ ks
  · rw [if_pos hm]; exact h
  · rw [if_neg hm]; exact List.mem_append_left _ h

theorem foldl_insKey_mono {x : String} :
    ∀ (items : List TimetableItem) (acc : List String), x ∈ acc →
      x ∈ items.foldl (fun ks i => insKey ks (semKey i)) acc := by
  intro items
  induction items with
  | nil => intro acc h; exact h
  | cons a t ih => intro acc h; exact ih _ (mem_insKey_mono h _)

theorem mem_keysOf {items : List TimetableItem} {i : TimetableItem} (h : i ∈ items) :
    semKey i ∈ keysOf items := by
  have aux : ∀ (its : List TimetableItem) (acc : List String), i ∈ its →
      semKey i ∈ its.foldl (fun ks j => insKey ks (semKey j)) acc := by
    intro its
    induction its with
    | nil => intro acc h0; cases h0
    | cons a t ih =>
      intro acc h0
      rcases List.mem_cons.mp h0 with rfl | h0
      · exact foldl_insKey_mono t _ (mem_insKey_self _ _)
      · exact ih _ h0
  exact aux items [] h

theorem flatMap_congr_fun {α β : Type} {l : List α} {f g : α → List β}
    (h : ∀ x ∈ l, f x = g x) : l.flatMap f = l.flatMap g := by
  induction l with
  | nil => rfl
  | cons a t ih =>
    rw [List.flatMap_cons, List.flatMap_cons, h a (List.mem_cons_self a t),
      ih (fun x hx => h x (List.mem_cons_of_mem a hx))]

theorem perm_flatMap_groupOf :
    ∀ (ks : List String) (l : List TimetableItem), ks.Nodup →
      (∀ i ∈ l, semKey i ∈ ks) →
      (ks.flatMap (fun k => groupOf l k)).Perm l := by
  intro ks
  induction ks with
  | nil =>
    intro l _ hcov
    cases l with
    | nil => simp
    | cons a t => exact absurd (hcov a (List.mem_cons_self a t)) (List.not_mem_nil _)
  | cons k ks ih =>
    intro l hnd hcov
    rw [List.flatMap_cons]
    have hkmem := (List.nodup_cons.mp hnd).1
    have hfeq : ks.flatMap (fun k' => groupOf l k') =
        ks.flatMap (fun k' => groupOf (l.filter (fun i => !(semKey i = k))) k') := by
      refine flatMap_congr_fun ?_
      intro k' hk'
      unfold groupOf
      rw [List.filter_filter]
      refine (List.filter_congr ?_).symm
      intro a _
      by_cases hs : semKey a = k'
      · have hkk' : ¬ k' = k := fun he => hkmem (he ▸ hk')
        have hak : ¬ semKey a = k := fun he2 => hkk' (hs.symm.trans he2)
        simp [hs, hak, hkk']
      · simp [hs]
    rw [hfeq]
    have hcov2 : ∀ i ∈ l.filter (fun i => !(semKey i = k)), semKey i ∈ ks := by
      intro i hi
      rcases List.mem_filter.mp hi with ⟨hil, hik⟩
      rcases List.mem_cons.mp (hcov i hil) with he | he
      · rw [he] at hik; simp at hik
      · exact he
    have hperm2 := ih (l.filter (fun i => !(semKey i = k))) (List.nodup_cons.mp hnd).2 hcov2
    refine List.Perm.trans (List.Perm.append_left (groupOf l k) hperm2) ?_
    unfold groupOf
    exact List.filter_append_perm _ l

theorem renderedRows_eq_flat (courseLe : String → String → Prop) [DecidableRel courseLe]
    (items : List TimetableItem) :
    renderedRows courseLe items =
      (sortedSemesterKeys items).flatMap
        (fun k => List.insertionSort (itemLe courseLe) (groupOf items k)) := by
  unfold renderedRows groupAndSortData
  rw [List.flatMap_map]

theorem sortedSemesterKeys_perm (items : List TimetableItem) :
    (sortedSemesterKeys items).Perm (keysOf items) :=
  List.perm_insertionSort strLe (keysOf items)

theorem renderedRows_perm (courseLe : String → String → Prop) [DecidableRel courseLe]
    (items : List TimetableItem) :
    (renderedRows courseLe items).Perm items := by
  rw [renderedRows_eq_flat]
  have h1 : ((sortedSemesterKeys items).flatMap
      (fun k => List.insertionSort (itemLe courseLe) (groupOf items k))).Perm
      ((sortedSemesterKeys items).flatMap (fun k => groupOf items k)) :=
    List.Perm.flatMap_left _ (fun k _ => List.perm_insertionSort (itemLe courseLe) _)
  have h2 : ((sortedSemesterKeys items).flatMap
      (fun k => groupOf items k)).Perm ((keysOf items).flatMap (fun k => groupOf items k)) :=
    List.Perm.flatMap_right _ (sortedSemesterKeys_perm items)
  exact (h1.trans h2).trans
    (perm_flatMap_groupOf (keysOf items) items (keysOf_nodup items)
      (fun i hi => mem_keysOf hi))

theorem mem_sorted_group_semKey {courseLe : String → String → Prop} [DecidableRel courseLe]
    {items : List TimetableItem} {k : String} {x : TimetableItem}
    (hx : x ∈ List.insertionSort (itemLe courseLe) (groupOf items k)) :
    semKey x = k := by
  have hx2 := (List.mem_insertionSort (itemLe courseLe)).mp hx
  exact of_decide_eq_true (List.mem_filter.mp hx2).2

theorem keys_pairwise_lt (items : List TimetableItem) :
    List.Pairwise strLt (sortedSemesterKeys items) := by
  have hs : List.Pairwise strLe (sortedSemesterKeys items) :=
    List.sorted_insertionSort strLe (keysOf items)
  have hn : (sortedSemesterKeys items).Nodup :=
    ((sortedSemesterKeys_perm items).nodup_iff).mpr (keysOf_nodup items)
  exact (hs.and hn).imp (fun h => strLe_lt_of_ne h.1 h.2)

theorem flat_pairwise (courseLe : String → String → Prop) [DecidableRel courseLe]
    [IsTotal String courseLe] [IsTrans String courseLe] (items : List TimetableItem) :
    ∀ ks : List String, List.Pairwise strLt ks →
      List.Pairwise (renderLe courseLe)
        (ks.flatMap (fun k => List.insertionSort (itemLe courseLe) (groupOf items k))) := by
  intro ks
  induction ks with
  | nil => intro _; simp
  | cons k t ih =>
    intro hp
    rw [List.flatMap_cons, List.pairwise_append]
    refine ⟨?_, ih hp.tail, ?_⟩
    · have hsorted : List.Pairwise (itemLe courseLe)
          (List.insertionSort (itemLe courseLe) (groupOf items k)) :=
        List.sorted_insertionSort (itemLe courseLe) _
      refine hsorted.imp_of_mem ?_
      intro a b ha hb hr
      exact Or.inr ⟨(mem_sorted_group_semKey ha).trans (mem_sorted_group_semKey hb).symm, hr⟩
    · intro a ha b hb
      rcases List.mem_flatMap.mp hb with ⟨k', hk', hbk'⟩
      left
      rw [mem_sorted_group_semKey ha, mem_sorted_group_semKey hbk']
      exact List.rel_of_pairwise_cons hp hk'

/-- C7, counterexample.  The table renders its semester groups in the order
of sortedSemesterKeys, the comparator-free default sort of
Object.keys(grouped), which is code-unit ascending on the raw labels: the
group labelled "B" is rendered before the group labelled "a-", although the
normalized label of the latter is strictly smaller, so the claimed
normalized-label ascending order fails.  Moreover an item whose time field
has no parseable clause at all (it is absent) can sort at 840 minutes
rather than the claimed zero, because the per-group sort parses the
corrected display time. -/
theorem rendering_order_counterexample :
    sortedSemesterKeys
        [{ semester := some "B", course := some "X 1" },
         { semester := some "a-", course := some "Y 1" }] = ["B", "a-"] ∧
    strLt (normalizeSemester "a-") (normalizeSemester "B") ∧
    ({ course := some "CSCL 2205" } : TimetableItem).time = none ∧
    parseTimeToMinutes (getDisplayTime { course := some "CSCL 2205" }) = 840 := by
  decide

/-- C7, amended.  For every total, transitive comparator courseLe standing
for the host collation of String.prototype.localeCompare (which ECMA-262
leaves implementation-defined), the rendered order is a permutation of the
input in which semester groups appear in ascending code-unit order of the
raw label (item.semester, or "Unknown" when absent), within a group records
ascend by the minutes-since-midnight value of the corrected display time
(an unparseable display time counting as zero), and records with equal time
values ascend by courseLe on the course codes. -/
theorem rendering_order_amended (courseLe : String → String → Prop)
    [DecidableRel courseLe] [IsTotal String courseLe] [IsTrans String courseLe]
    (items : List TimetableItem) :
    (renderedRows courseLe items).Perm items ∧
    List.Pairwise (renderLe courseLe) (renderedRows courseLe items) := by
  refine ⟨renderedRows_perm courseLe items, ?_⟩
  rw [renderedRows_eq_flat]
  exact flat_pairwise courseLe items _ (keys_pairwise_lt items)

/-- C7, witness: the ordering theorem applied to the code-point collation
and a concrete two-semester list. -/
theorem rendering_order_amended_witness :
    (renderedRows strLe
        [{ semester := some "B", course := some "X 1" },
         { semester := some "a-", course := some "Y 1" }]).Perm
      [{ semester := some "B", course := some "X 1" },
       { semester := some "a-", course := some "Y 1" }] ∧
    List.Pairwise (renderLe strLe)
      (renderedRows strLe
        [{ semester := some "B", course := some "X 1" },
         { semester := some "a-", course := some "Y 1" }]) :=
  rendering_order_amended strLe
    [{ semester := some "B", course := some "X 1" },
     { semester := some "a-", course := some "Y 1" }]

end TimetableWizard
